import Mathlib

set_option maxHeartbeats 1600000

/-!
Verification of the `dmap` package: a dynamic JSON-like tree (`interface{}`
values in Go) navigated by heterogeneous paths.  The Go dynamic value is
embedded as the inductive `Val`; Go maps become association lists, Go slices
become lists, and the traversal loop of `DMap.Get` becomes the structural
recursion `getLoop`.  A Go runtime panic (map lookup or insertion with an
uncomparable key) is modelled by the `none` result of an `Option` layer.
-/

/-- Decidable equality for `Except` results (not provided by core). -/
def decEqExcept {e a : Type} [DecidableEq e] [DecidableEq a] :
    (x y : Except e a) → Decidable (x = y)
  | Except.error e1, Except.error e2 =>
    if h : e1 = e2 then isTrue (by rw [h])
    else isFalse (fun hh => h (Except.error.inj hh))
  | Except.error _, Except.ok _ => isFalse nofun
  | Except.ok _, Except.error _ => isFalse nofun
  | Except.ok a1, Except.ok a2 =>
    if h : a1 = a2 then isTrue (by rw [h])
    else isFalse (fun hh => h (Except.ok.inj hh))

instance {e a : Type} [DecidableEq e] [DecidableEq a] : DecidableEq (Except e a) :=
  decEqExcept

/-- The dynamic value model: Go `interface{}` as decoded from JSON or built by
hand.  `mapSI` is `map[string]interface{}`, `mapII` is
`map[interface{}]interface{}` and `slice` is `[]interface{}`; the Go maps are
represented as association lists. -/
inductive Val : Type where
  | null : Val
  | bool (b : Bool) : Val
  | int (n : Int) : Val
  | str (s : String) : Val
  | mapSI (m : List (String × Val)) : Val
  | mapII (m : List (Val × Val)) : Val
  | slice (xs : List Val) : Val

mutual

/-- Structural decidable equality on `Val` (kernel-reducible, so `decide`
can evaluate concrete instances). -/
def decEqVal : (a b : Val) → Decidable (a = b)
  | Val.null, Val.null => isTrue rfl
  | Val.null, Val.bool _ => isFalse nofun
  | Val.null, Val.int _ => isFalse nofun
  | Val.null, Val.str _ => isFalse nofun
  | Val.null, Val.mapSI _ => isFalse nofun
  | Val.null, Val.mapII _ => isFalse nofun
  | Val.null, Val.slice _ => isFalse nofun
  | Val.bool _, Val.null => isFalse nofun
  | Val.bool a, Val.bool b =>
    if h : a = b then isTrue (by rw [h]) else isFalse (fun hh => h (Val.bool.inj hh))
  | Val.bool _, Val.int _ => isFalse nofun
  | Val.bool _, Val.str _ => isFalse nofun
  | Val.bool _, Val.mapSI _ => isFalse nofun
  | Val.bool _, Val.mapII _ => isFalse nofun
  | Val.bool _, Val.slice _ => isFalse nofun
  | Val.int _, Val.null => isFalse nofun
  | Val.int _, Val.bool _ => isFalse nofun
  | Val.int a, Val.int b =>
    if h : a = b then isTrue (by rw [h]) else isFalse (fun hh => h (Val.int.inj hh))
  | Val.int _, Val.str _ => isFalse nofun
  | Val.int _, Val.mapSI _ => isFalse nofun
  | Val.int _, Val.mapII _ => isFalse nofun
  | Val.int _, Val.slice _ => isFalse nofun
  | Val.str _, Val.null => isFalse nofun
  | Val.str _, Val.bool _ => isFalse nofun
  | Val.str _, Val.int _ => isFalse nofun
  | Val.str a, Val.str b =>
    if h : a = b then isTrue (by rw [h]) else isFalse (fun hh => h (Val.str.inj hh))
  | Val.str _, Val.mapSI _ => isFalse nofun
  | Val.str _, Val.mapII _ => isFalse nofun
  | Val.str _, Val.slice _ => isFalse nofun
  | Val.mapSI _, Val.null => isFalse nofun
  | Val.mapSI _, Val.bool _ => isFalse nofun
  | Val.mapSI _, Val.int _ => isFalse nofun
  | Val.mapSI _, Val.str _ => isFalse nofun
  | Val.mapSI a, Val.mapSI b =>
    match decEqListSI a b with
    | isTrue h => isTrue (by rw [h])
    | isFalse h => isFalse (fun hh => h (Val.mapSI.inj hh))
  | Val.mapSI _, Val.mapII _ => isFalse nofun
  | Val.mapSI _, Val.slice _ => isFalse nofun
  | Val.mapII _, Val.null => isFalse nofun
  | Val.mapII _, Val.bool _ => isFalse nofun
  | Val.mapII _, Val.int _ => isFalse nofun
  | Val.mapII _, Val.str _ => isFalse nofun
  | Val.mapII _, Val.mapSI _ => isFalse nofun
  | Val.mapII a, Val.mapII b =>
    match decEqListII a b with
    | isTrue h => isTrue (by rw [h])
    | isFalse h => isFalse (fun hh => h (Val.mapII.inj hh))
  | Val.mapII _, Val.slice _ => isFalse nofun
  | Val.slice _, Val.null => isFalse nofun
  | Val.slice _, Val.bool _ => isFalse nofun
  | Val.slice _, Val.int _ => isFalse nofun
  | Val.slice _, Val.str _ => isFalse nofun
  | Val.slice _, Val.mapSI _ => isFalse nofun
  | Val.slice _, Val.mapII _ => isFalse nofun
  | Val.slice a, Val.slice b =>
    match decEqListV a b with
    | isTrue h => isTrue (by rw [h])
    | isFalse h => isFalse (fun hh => h (Val.slice.inj hh))
termination_by structural a => a

/-- Decidable equality for string-keyed entry lists. -/
def decEqListSI : (a b : List (String × Val)) → Decidable (a = b)
  | [], [] => isTrue rfl
  | [], _ :: _ => isFalse nofun
  | _ :: _, [] => isFalse nofun
  | (k1, v1) :: r1, (k2, v2) :: r2 =>
    if hk : k1 = k2 then
      match decEqVal v1 v2 with
      | isTrue hv =>
        match decEqListSI r1 r2 with
        | isTrue hr => isTrue (by rw [hk, hv, hr])
        | isFalse hr => isFalse (fun hh => by
            injection hh with h1 h2
            exact hr h2)
      | isFalse hv => isFalse (fun hh => by
          injection hh with h1 h2
          injection h1 with hk1 hv1
          exact hv hv1)
    else isFalse (fun hh => by
      injection hh with h1 h2
      injection h1 with hk1 hv1
      exact hk hk1)
termination_by structural a => a

/-- Decidable equality for scalar-keyed entry lists. -/
def decEqListII : (a b : List (Val × Val)) → Decidable (a = b)
  | [], [] => isTrue rfl
  | [], _ :: _ => isFalse nofun
  | _ :: _, [] => isFalse nofun
  | (k1, v1) :: r1, (k2, v2) :: r2 =>
    match decEqVal k1 k2 with
    | isTrue hk =>
      match decEqVal v1 v2 with
      | isTrue hv =>
        match decEqListII r1 r2 with
        | isTrue hr => isTrue (by rw [hk, hv, hr])
        | isFalse hr => isFalse (fun hh => by
            injection hh with h1 h2
            exact hr h2)
      | isFalse hv => isFalse (fun hh => by
          injection hh with h1 h2
          injection h1 with hk1 hv1
          exact hv hv1)
    | isFalse hk => isFalse (fun hh => by
        injection hh with h1 h2
        injection h1 with hk1 hv1
        exact hk hk1)
termination_by structural a => a

/-- Decidable equality for element lists. -/
def decEqListV : (a b : List Val) → Decidable (a = b)
  | [], [] => isTrue rfl
  | [], _ :: _ => isFalse nofun
  | _ :: _, [] => isFalse nofun
  | v1 :: r1, v2 :: r2 =>
    match decEqVal v1 v2 with
    | isTrue hv =>
      match decEqListV r1 r2 with
      | isTrue hr => isTrue (by rw [hv, hr])
      | isFalse hr => isFalse (fun hh => by
          injection hh with h1 h2
          exact hr h2)
    | isFalse hv => isFalse (fun hh => by
        injection hh with h1 h2
        exact hv h1)
termination_by structural a => a

end

instance : DecidableEq Val := decEqVal

/-- The Go dynamic type name of a value (the `%T` verb), determined by the
constructor. -/
def typeName : Val → String
  | Val.null => "<nil>"
  | Val.bool _ => "bool"
  | Val.int _ => "int"
  | Val.str _ => "string"
  | Val.mapSI _ => "map[string]interface \x7b\x7d"
  | Val.mapII _ => "map[interface \x7b\x7d]interface \x7b\x7d"
  | Val.slice _ => "[]interface \x7b\x7d"

/-- Whether the Go dynamic type of the value is comparable: using an
uncomparable value (map or slice) as a map key panics at runtime. -/
def Val.goComparable : Val → Bool
  | Val.mapSI _ => false
  | Val.mapII _ => false
  | Val.slice _ => false
  | _ => true

/-- Lookup in a string-keyed map modelled as an association list. -/
def lookupSI : List (String × Val) → String → Option Val
  | [], _ => none
  | (k1, v) :: rest, k => if k1 = k then some v else lookupSI rest k

/-- Lookup in a scalar-keyed map modelled as an association list; key
equality is Go interface equality (same dynamic type and equal value). -/
def lookupII : List (Val × Val) → Val → Option Val
  | [], _ => none
  | (k1, v) :: rest, k => if k1 = k then some v else lookupII rest k

/-- Go `m[k] = v` for a string-keyed map: overwrite the entry if present,
otherwise add it. -/
def insertSI : List (String × Val) → String → Val → List (String × Val)
  | [], k, v => [(k, v)]
  | (k1, v1) :: rest, k, v =>
    if k1 = k then (k, v) :: rest else (k1, v1) :: insertSI rest k v

/-- Go `m[k] = v` for a scalar-keyed map. -/
def insertII : List (Val × Val) → Val → Val → List (Val × Val)
  | [], k, v => [(k, v)]
  | (k1, v1) :: rest, k, v =>
    if k1 = k then (k, v) :: rest else (k1, v1) :: insertII rest k v

/-- Apply a function to the value stored at a key of a string-keyed map,
leaving the map unchanged when the key is absent. -/
def updSI : List (String × Val) → String → (Val → Val) → List (String × Val)
  | [], _, _ => []
  | (k1, v1) :: rest, k, f =>
    if k1 = k then (k1, f v1) :: rest else (k1, v1) :: updSI rest k f

/-- Apply a function to the value stored at a key of a scalar-keyed map. -/
def updII : List (Val × Val) → Val → (Val → Val) → List (Val × Val)
  | [], _, _ => []
  | (k1, v1) :: rest, k, f =>
    if k1 = k then (k1, f v1) :: rest else (k1, v1) :: updII rest k f

/-- Apply a function to the element at an index, leaving the list unchanged
when the index is out of range. -/
def updIdxN : List Val → Nat → (Val → Val) → List Val
  | [], _, _ => []
  | x :: rest, 0, f => f x :: rest
  | x :: rest, n + 1, f => x :: updIdxN rest n f

/-- The error taxonomy of the package, with the data each formatted error
message carries (`fmt.Errorf` arguments). -/
inductive DErr : Type where
  | emptyData : DErr
  | expectedKey (seg : Val) (ty : String) (pathPre : List Val) : DErr
  | keyNotFound (key : Val) (pathPre : List Val) : DErr
  | expectedIndex (seg : Val) (ty : String) (pathPre : List Val) : DErr
  | indexOutOfRange (index : Int) (pathPre : List Val) : DErr
  | unexpectedType (pathPre : List Val) : DErr
  | notMapSI (path : List Val) : DErr
  | notMapII (path : List Val) : DErr
  | notSliceI (path : List Val) : DErr
deriving DecidableEq

/-- The path (or path prefix) a formatted error message carries, if any:
`emptyData` is the one error formatted with no arguments at all. -/
def DErr.carriedPath : DErr → Option (List Val)
  | DErr.emptyData => none
  | DErr.expectedKey _ _ pre => some pre
  | DErr.keyNotFound _ pre => some pre
  | DErr.expectedIndex _ _ pre => some pre
  | DErr.indexOutOfRange _ pre => some pre
  | DErr.unexpectedType pre => some pre
  | DErr.notMapSI p => some p
  | DErr.notMapII p => some p
  | DErr.notSliceI p => some p

/-- One iteration of the traversal loop in `Get` (`dmap.go` lines 74-110):
dispatch on the shape of the current value and resolve one path segment.
`pre1` is the path prefix up to and including this segment (`path[:i+1]`);
the `Option` layer is `none` exactly when Go would panic (scalar-keyed map
lookup with an uncomparable key). -/
def getStep (cur p : Val) (pre1 : List Val) : Option (Except DErr Val) :=
  match cur with
  | Val.mapSI m =>
    match p with
    | Val.str k =>
      match lookupSI m k with
      | some v => some (Except.ok v)
      | none => some (Except.error (DErr.keyNotFound (Val.str k) pre1))
    | _ => some (Except.error (DErr.expectedKey p (typeName p) pre1))
  | Val.mapII m =>
    if p.goComparable then
      match lookupII m p with
      | some v => some (Except.ok v)
      | none => some (Except.error (DErr.keyNotFound p pre1))
    else none
  | Val.slice xs =>
    match p with
    | Val.int i =>
      if i < 0 ∨ (xs.length : Int) ≤ i then
        some (Except.error (DErr.indexOutOfRange i pre1))
      else some (Except.ok (xs.getD i.toNat Val.null))
    | _ => some (Except.error (DErr.expectedIndex p (typeName p) pre1))
  | _ => some (Except.error (DErr.unexpectedType pre1))

/-- The traversal loop of `Get`: resolve the remaining segments from `cur`,
where `pre` is the list of segments already consumed. -/
def getLoop : Val → List Val → List Val → Option (Except DErr Val)
  | cur, _, [] => some (Except.ok cur)
  | cur, pre, p :: rest =>
    match getStep cur p (pre ++ [p]) with
    | some (Except.ok v) => getLoop v (pre ++ [p]) rest
    | r => r

/-- The `DMap` struct: a wrapper around one dynamic value. -/
structure DMap : Type where
  data : Val
deriving DecidableEq

/-- `Init`: wrap a value as-is. -/
def DMap.Init (v : Val) : DMap := ⟨v⟩

/-- `Data()`: the wrapped value. -/
def DMap.Data (d : DMap) : Val := d.data

/-- `HasData()`: whether the wrapped value is not nil. -/
def DMap.HasData (d : DMap) : Bool := decide (d.data ≠ Val.null)

/-- `Get`: resolve a path from the root, returning a new wrapper around the
final value, the first error encountered, or `none` for a Go panic. -/
def DMap.Get (d : DMap) (path : List Val) : Option (Except DErr DMap) :=
  if d.HasData = false ∧ path ≠ [] then some (Except.error DErr.emptyData)
  else (getLoop d.data [] path).map (Except.map DMap.mk)

/-- `Exists`: whether `Get` succeeds (`none` when `Get` panics). -/
def DMap.Exists (d : DMap) (path : List Val) : Option Bool :=
  (d.Get path).map (fun r => match r with
    | Except.ok _ => true
    | Except.error _ => false)

/-- `GetMapSI`: `Get` then view the result as a string-keyed map. -/
def DMap.GetMapSI (d : DMap) (path : List Val) :
    Option (Except DErr (List (String × Val))) :=
  match d.Get path with
  | none => none
  | some (Except.error e) => some (Except.error e)
  | some (Except.ok w) =>
    match w.data with
    | Val.mapSI m => some (Except.ok m)
    | _ => some (Except.error (DErr.notMapSI path))

/-- `GetMapII`: `Get` then view the result as a scalar-keyed map. -/
def DMap.GetMapII (d : DMap) (path : List Val) :
    Option (Except DErr (List (Val × Val))) :=
  match d.Get path with
  | none => none
  | some (Except.error e) => some (Except.error e)
  | some (Except.ok w) =>
    match w.data with
    | Val.mapII m => some (Except.ok m)
    | _ => some (Except.error (DErr.notMapII path))

/-- `GetSliceI`: `Get` then view the result as a slice. -/
def DMap.GetSliceI (d : DMap) (path : List Val) :
    Option (Except DErr (List Val)) :=
  match d.Get path with
  | none => none
  | some (Except.error e) => some (Except.error e)
  | some (Except.ok w) =>
    match w.data with
    | Val.slice xs => some (Except.ok xs)
    | _ => some (Except.error (DErr.notSliceI path))

/-- The in-place mutation `parent[key] = data` performed by `SetMapSI`,
as a function on the parent container. -/
def setLeafSI (key : String) (v : Val) : Val → Val
  | Val.mapSI m => Val.mapSI (insertSI m key v)
  | other => other

/-- The in-place mutation `parent[key] = data` performed by `SetMapII`. -/
def setLeafII (key : Val) (v : Val) : Val → Val
  | Val.mapII m => Val.mapII (insertII m key v)
  | other => other

/-- The in-place mutation `parent[index] = data` performed by `SetSliceI`. -/
def setLeafSlice (index : Int) (v : Val) : Val → Val
  | Val.slice xs =>
    if index < 0 then Val.slice xs
    else Val.slice (updIdxN xs index.toNat (fun _ => v))
  | other => other

/-- Rebuild the tree after an in-place mutation of the container reached by
`path`: pure counterpart of Go reference sharing, following exactly the
descent route of the traversal (and changing nothing on a route `Get` would
not take). -/
def updateAt (cur : Val) (P : List Val) (f : Val → Val) : Val :=
  match P with
  | [] => f cur
  | p :: ps =>
    match cur with
    | Val.mapSI m =>
      match p with
      | Val.str k => Val.mapSI (updSI m k (fun c => updateAt c ps f))
      | _ => Val.mapSI m
    | Val.mapII m => Val.mapII (updII m p (fun c => updateAt c ps f))
    | Val.slice xs =>
      match p with
      | Val.int i =>
        if i < 0 then Val.slice xs
        else Val.slice (updIdxN xs i.toNat (fun c => updateAt c ps f))
      | _ => Val.slice xs
    | other => other

/-- `SetMapSI`: resolve the parent as a string-keyed map and set `key` to
`v` in it.  The first component is the returned error (`none` for panic);
the second is the tree after the call. -/
def DMap.SetMapSI (d : DMap) (v : Val) (key : String) (path : List Val) :
    Option (Except DErr Unit) × DMap :=
  match d.GetMapSI path with
  | none => (none, d)
  | some (Except.error e) => (some (Except.error e), d)
  | some (Except.ok _) =>
    (some (Except.ok ()), ⟨updateAt d.data path (setLeafSI key v)⟩)

/-- `SetMapII`: resolve the parent as a scalar-keyed map and set `key` to
`v` in it; inserting an uncomparable key panics in Go. -/
def DMap.SetMapII (d : DMap) (v : Val) (key : Val) (path : List Val) :
    Option (Except DErr Unit) × DMap :=
  match d.GetMapII path with
  | none => (none, d)
  | some (Except.error e) => (some (Except.error e), d)
  | some (Except.ok _) =>
    if key.goComparable then
      (some (Except.ok ()), ⟨updateAt d.data path (setLeafII key v)⟩)
    else (none, d)

/-- `SetSliceI`: resolve the parent as a slice, check the index bound, and
set the element. -/
def DMap.SetSliceI (d : DMap) (v : Val) (index : Int) (path : List Val) :
    Option (Except DErr Unit) × DMap :=
  match d.GetSliceI path with
  | none => (none, d)
  | some (Except.error e) => (some (Except.error e), d)
  | some (Except.ok parent) =>
    if index < 0 ∨ (parent.length : Int) ≤ index then
      (some (Except.error (DErr.indexOutOfRange index path)), d)
    else (some (Except.ok ()), ⟨updateAt d.data path (setLeafSlice index v)⟩)

/-- Continuation of a traversal result: keep resolving `rest` when the result
so far is a success, propagate errors and panics otherwise. -/
def contGet (r : Option (Except DErr Val)) (pre rest : List Val) :
    Option (Except DErr Val) :=
  match r with
  | some (Except.ok v) => getLoop v pre rest
  | r => r

/-- Two-stage resolution: resolve `P`, then resolve the single extra segment
`s` from the resulting node (propagating failure and panic). -/
def composeGet (d : DMap) (P : List Val) (s : Val) : Option (Except DErr DMap) :=
  match d.Get P with
  | some (Except.ok w) => w.Get [s]
  | r => r

/-- Outcome equivalence of two traversal results: both panic, both fail
(with possibly different errors), or both succeed with the same value. -/
def outcomeEquiv : Option (Except DErr DMap) → Option (Except DErr DMap) → Prop
  | none, none => True
  | some (Except.error _), some (Except.error _) => True
  | some (Except.ok a), some (Except.ok b) => a = b
  | _, _ => False

/-- The sequence `["c1","c2","c3"]` of the README example. -/
def exContents : List Val := [Val.str "c1", Val.str "c2", Val.str "c3"]

/-- The entries of the `"root"` object of the README example. -/
def exRootMap : List (String × Val) :=
  [("title", Val.str "example json"), ("contents", Val.slice exContents)]

/-- The entries of a scalar-keyed map exercising the `mapII` branch. -/
def exScalMap : List (Val × Val) :=
  [(Val.int 1, Val.str "one"), (Val.bool true, Val.str "t")]

/-- The concrete example tree from the README:
`{"root": {"title": "example json", "contents": ["c1","c2","c3"]}}`,
extended with a scalar-keyed map for the `mapII` branch. -/
def exTree : Val :=
  Val.mapSI [("root", Val.mapSI exRootMap), ("scal", Val.mapII exScalMap)]

/-- The example tree wrapped as a `DMap`. -/
def exD : DMap := ⟨exTree⟩

theorem exGet_title :
    exD.Get [Val.str "root", Val.str "title"] =
      some (Except.ok ⟨Val.str "example json"⟩) := by decide

theorem exGet_contents1 :
    exD.Get [Val.str "root", Val.str "contents", Val.int 1] =
      some (Except.ok ⟨Val.str "c2"⟩) := by decide

theorem exGet_oob :
    exD.Get [Val.str "root", Val.str "contents", Val.int 5] =
      some (Except.error (DErr.indexOutOfRange 5
        [Val.str "root", Val.str "contents", Val.int 5])) := by decide

theorem exGet_expectedKey :
    exD.Get [Val.str "root", Val.int 5] =
      some (Except.error (DErr.expectedKey (Val.int 5) "int"
        [Val.str "root", Val.int 5])) := by decide

theorem getLoop_append : ∀ (P Q : List Val) (cur : Val) (pre : List Val),
    getLoop cur pre (P ++ Q) = contGet (getLoop cur pre P) (pre ++ P) Q := by
  intro P
  induction P with
  | nil => intro Q cur pre; simp [getLoop, contGet]
  | cons p P ih =>
    intro Q cur pre
    simp only [List.cons_append, getLoop]
    cases h : getStep cur p (pre ++ [p]) with
    | none => simp [contGet]
    | some r =>
      cases r with
      | ok v =>
        have hrw : pre ++ p :: P = (pre ++ [p]) ++ P := by simp
        simp only [hrw]
        exact ih Q v (pre ++ [p])
      | error e => simp [contGet]

theorem get_ok_loop (d : DMap) (P : List Val) (w : DMap)
    (h : d.Get P = some (Except.ok w)) :
    getLoop d.data [] P = some (Except.ok w.data) := by
  unfold DMap.Get at h
  split at h
  · simp at h
  · cases r : getLoop d.data [] P with
    | none => rw [r] at h; simp at h
    | some x =>
      cases x with
      | ok v =>
        rw [r] at h
        simp [Except.map] at h
        rw [← h]
      | error e => rw [r] at h; simp [Except.map] at h

theorem get_ok_root_ne_null (d : DMap) (P : List Val) (w : DMap)
    (h : d.Get P = some (Except.ok w)) (hw : w.data ≠ Val.null) :
    d.data ≠ Val.null := by
  intro hnull
  unfold DMap.Get at h
  split at h
  · simp at h
  · rename_i hcond
    by_cases hP : P = []
    · subst hP
      have hl : getLoop d.data [] [] = some (Except.ok d.data) := rfl
      rw [hl] at h
      simp [Except.map] at h
      apply hw
      rw [← h, hnull]
    · exact hcond ⟨by simp [DMap.HasData, hnull], hP⟩

theorem get_extend (d : DMap) (P Q : List Val) (w : DMap)
    (hn : d.data ≠ Val.null)
    (h : d.Get P = some (Except.ok w)) :
    d.Get (P ++ Q) = (getLoop w.data P Q).map (Except.map DMap.mk) := by
  have hl := get_ok_loop d P w h
  have hhd : d.HasData = true := by simp [DMap.HasData, hn]
  unfold DMap.Get
  rw [if_neg (by simp [hhd] : ¬ (d.HasData = false ∧ P ++ Q ≠ []))]
  rw [getLoop_append, hl]
  simp [contGet]

theorem getStep_none (cur p : Val) (pre1 : List Val)
    (h : getStep cur p pre1 = none) : p.goComparable = false := by
  cases cur with
  | mapII m =>
    simp only [getStep] at h
    by_cases hc : p.goComparable = true
    · rw [if_pos hc] at h
      cases hl : lookupII m p <;> rw [hl] at h <;> simp at h
    · simpa using hc
  | mapSI m =>
    cases p with
    | str k =>
      simp only [getStep] at h
      cases hl : lookupSI m k <;> rw [hl] at h <;> simp at h
    | null => simp [getStep] at h
    | bool b => simp [getStep] at h
    | int n => simp [getStep] at h
    | mapSI m2 => simp [getStep] at h
    | mapII m2 => simp [getStep] at h
    | slice xs => simp [getStep] at h
  | slice xs =>
    cases p with
    | int i =>
      simp only [getStep] at h
      split at h <;> simp at h
    | null => simp [getStep] at h
    | bool b => simp [getStep] at h
    | str s => simp [getStep] at h
    | mapSI m2 => simp [getStep] at h
    | mapII m2 => simp [getStep] at h
    | slice xs2 => simp [getStep] at h
  | null => simp [getStep] at h
  | bool b => simp [getStep] at h
  | int n => simp [getStep] at h
  | str s => simp [getStep] at h

theorem getLoop_isSome : ∀ (path : List Val) (cur : Val) (pre : List Val),
    (∀ s ∈ path, s.goComparable = true) → (getLoop cur pre path).isSome = true := by
  intro path
  induction path with
  | nil => intro cur pre h; simp [getLoop]
  | cons p rest ih =>
    intro cur pre h
    simp only [getLoop]
    cases hs : getStep cur p (pre ++ [p]) with
    | none =>
      have hf := getStep_none cur p (pre ++ [p]) hs
      have hp : p.goComparable = true := h p (by simp)
      rw [hp] at hf
      exact absurd hf (by simp)
    | some r =>
      cases r with
      | ok v => exact ih v (pre ++ [p]) (fun s hsm => h s (by simp [hsm]))
      | error e => simp

/-- C7: for every node wrapping the absent sentinel (nil) and every non-empty
path, `Get` fails immediately with `EmptyData` before attempting any step. -/
theorem claim7_get_nil_root_emptyData (d : DMap) (path : List Val)
    (hnull : d.data = Val.null) (hne : path ≠ []) :
    d.Get path = some (Except.error DErr.emptyData) := by
  unfold DMap.Get
  rw [if_pos ⟨by simp [DMap.HasData, hnull], hne⟩]

theorem claim7_get_nil_root_emptyData_witness :
    DMap.Get ⟨Val.null⟩ [Val.str "a"] = some (Except.error DErr.emptyData) :=
  claim7_get_nil_root_emptyData ⟨Val.null⟩ [Val.str "a"] rfl (by decide)

/-- C8: for every node whose wrapped value is not nil, `Get` with an empty
path succeeds and returns a node wrapping the same value `Data()` returns. -/
theorem claim8_get_empty_path (d : DMap) (h : d.HasData = true) :
    d.Get [] = some (Except.ok ⟨d.Data⟩) := by
  unfold DMap.Get
  rw [if_neg (by simp)]
  rfl

theorem claim8_get_empty_path_witness :
    DMap.HasData ⟨Val.int 3⟩ = true ∧
      DMap.Get ⟨Val.int 3⟩ [] = some (Except.ok ⟨Val.int 3⟩) :=
  ⟨by decide, claim8_get_empty_path ⟨Val.int 3⟩ (by decide)⟩

/-- C9: for a node wrapping nil, `Get` with an empty path nevertheless
succeeds and returns a node wrapping nil, and `Exists` with an empty path
returns true, even though `HasData()` returns false. -/
theorem claim9_nil_root_empty_path :
    DMap.Get ⟨Val.null⟩ [] = some (Except.ok ⟨Val.null⟩) ∧
    DMap.Exists ⟨Val.null⟩ [] = some true ∧
    DMap.HasData ⟨Val.null⟩ = false := by decide

/-- C10: for every node and every path all of whose segments are comparable,
`Get` returns a result (never panics); and the precondition is required:
an uncomparable segment can make the scalar-keyed-map branch panic. -/
theorem claim10_no_panic (d : DMap) (path : List Val)
    (h : ∀ s ∈ path, s.goComparable = true) :
    (d.Get path).isSome = true ∧
      DMap.Get ⟨Val.mapII []⟩ [Val.slice []] = none := by
  constructor
  · unfold DMap.Get
    split
    · simp
    · have hs := getLoop_isSome path d.data [] h
      cases r : getLoop d.data [] path with
      | none => rw [r] at hs; simp at hs
      | some x => simp
  · decide

theorem claim10_no_panic_witness :
    (DMap.Get exD [Val.str "root"]).isSome = true ∧
      DMap.Get ⟨Val.mapII []⟩ [Val.slice []] = none :=
  claim10_no_panic exD [Val.str "root"] (by decide)

/-- C1: at any traversal step where the current value is a string-keyed
mapping, a non-string segment fails with `ExpectedKey` (carrying the segment,
its dynamic type and the path prefix up to and including this step), an
absent string key fails with `KeyNotFound` (carrying the key and the path
prefix), and a present key descends into the looked-up value. -/
theorem claim1_mapSI_step (d : DMap) (P R : List Val) (p : Val)
    (m : List (String × Val))
    (h : d.Get P = some (Except.ok ⟨Val.mapSI m⟩)) :
    ((∀ s, p ≠ Val.str s) →
      d.Get (P ++ p :: R) =
        some (Except.error (DErr.expectedKey p (typeName p) (P ++ [p])))) ∧
    (∀ k, p = Val.str k → lookupSI m k = none →
      d.Get (P ++ p :: R) =
        some (Except.error (DErr.keyNotFound (Val.str k) (P ++ [p])))) ∧
    (∀ k v, p = Val.str k → lookupSI m k = some v →
      d.Get (P ++ p :: R) = (getLoop v (P ++ [p]) R).map (Except.map DMap.mk)) := by
  have hn : d.data ≠ Val.null := get_ok_root_ne_null d P ⟨Val.mapSI m⟩ h (by simp)
  have hext := get_extend d P (p :: R) ⟨Val.mapSI m⟩ hn h
  refine ⟨?_, ?_, ?_⟩
  · intro hps
    rw [hext]
    have hstep : getStep (Val.mapSI m) p (P ++ [p]) =
        some (Except.error (DErr.expectedKey p (typeName p) (P ++ [p]))) := by
      cases p with
      | str s => exact absurd rfl (hps s)
      | null => rfl
      | bool b => rfl
      | int n => rfl
      | mapSI x => rfl
      | mapII x => rfl
      | slice x => rfl
    simp only [getLoop]
    rw [hstep]
    simp [Except.map]
  · intro k hp hlook
    subst hp
    rw [hext]
    simp only [getLoop, getStep, hlook]
    simp [Except.map]
  · intro k v hp hlook
    subst hp
    rw [hext]
    simp only [getLoop, getStep, hlook]

theorem claim1_mapSI_step_witness :
    DMap.Get exD [Val.str "root", Val.int 5] =
      some (Except.error (DErr.expectedKey (Val.int 5) "int"
        [Val.str "root", Val.int 5])) ∧
    DMap.Get exD [Val.str "root", Val.str "missing"] =
      some (Except.error (DErr.keyNotFound (Val.str "missing")
        [Val.str "root", Val.str "missing"])) := by
  constructor
  · exact (claim1_mapSI_step exD [Val.str "root"] [] (Val.int 5) exRootMap
      (by decide)).1 (fun s hh => Val.noConfusion hh)
  · exact (claim1_mapSI_step exD [Val.str "root"] [] (Val.str "missing") exRootMap
      (by decide)).2.1 "missing" rfl (by decide)

/-- C2: at any traversal step where the current value is a sequence, a
non-integer segment fails with `ExpectedIndex`, an integer that is negative
or at least the length fails with `IndexOutOfRange`, and a valid index
descends into the element at that index. -/
theorem claim2_slice_step (d : DMap) (P R : List Val) (p : Val) (xs : List Val)
    (h : d.Get P = some (Except.ok ⟨Val.slice xs⟩)) :
    ((∀ n : Int, p ≠ Val.int n) →
      d.Get (P ++ p :: R) =
        some (Except.error (DErr.expectedIndex p (typeName p) (P ++ [p])))) ∧
    (∀ n : Int, p = Val.int n → (n < 0 ∨ (xs.length : Int) ≤ n) →
      d.Get (P ++ p :: R) =
        some (Except.error (DErr.indexOutOfRange n (P ++ [p])))) ∧
    (∀ n : Int, p = Val.int n → 0 ≤ n → n < (xs.length : Int) →
      d.Get (P ++ p :: R) =
        (getLoop (xs.getD n.toNat Val.null) (P ++ [p]) R).map
          (Except.map DMap.mk)) := by
  have hn : d.data ≠ Val.null := get_ok_root_ne_null d P ⟨Val.slice xs⟩ h (by simp)
  have hext := get_extend d P (p :: R) ⟨Val.slice xs⟩ hn h
  refine ⟨?_, ?_, ?_⟩
  · intro hps
    rw [hext]
    have hstep : getStep (Val.slice xs) p (P ++ [p]) =
        some (Except.error (DErr.expectedIndex p (typeName p) (P ++ [p]))) := by
      cases p with
      | int n => exact absurd rfl (hps n)
      | null => rfl
      | bool b => rfl
      | str s => rfl
      | mapSI x => rfl
      | mapII x => rfl
      | slice x => rfl
    simp only [getLoop]
    rw [hstep]
    simp [Except.map]
  · intro n hp hb
    subst hp
    rw [hext]
    simp only [getLoop, getStep]
    rw [if_pos hb]
    simp [Except.map]
  · intro n hp h0 hlen
    subst hp
    rw [hext]
    simp only [getLoop, getStep]
    rw [if_neg (by omega)]

theorem claim2_slice_step_witness :
    DMap.Get exD [Val.str "root", Val.str "contents", Val.int 5] =
      some (Except.error (DErr.indexOutOfRange 5
        [Val.str "root", Val.str "contents", Val.int 5])) ∧
    DMap.Get exD [Val.str "root", Val.str "contents", Val.int 1] =
      some (Except.ok ⟨Val.str "c2"⟩) := by
  constructor
  · exact (claim2_slice_step exD [Val.str "root", Val.str "contents"] []
      (Val.int 5) exContents (by decide)).2.1 5 rfl (by decide)
  · exact (claim2_slice_step exD [Val.str "root", Val.str "contents"] []
      (Val.int 1) exContents (by decide)).2.2 1 rfl (by decide) (by decide)

/-- C5: a typed setter whose parent resolution fails (path does not resolve,
or resolves to the wrong container shape) returns exactly the
parent-resolution error and leaves the tree unmodified. -/
theorem claim5_set_error_frame (d : DMap) (path : List Val) (v : Val) (e : DErr) :
    (∀ key : String, d.GetMapSI path = some (Except.error e) →
      d.SetMapSI v key path = (some (Except.error e), d)) ∧
    (∀ key : Val, d.GetMapII path = some (Except.error e) →
      d.SetMapII v key path = (some (Except.error e), d)) ∧
    (∀ index : Int, d.GetSliceI path = some (Except.error e) →
      d.SetSliceI v index path = (some (Except.error e), d)) := by
  refine ⟨?_, ?_, ?_⟩
  · intro key h
    simp [DMap.SetMapSI, h]
  · intro key h
    simp [DMap.SetMapII, h]
  · intro index h
    simp [DMap.SetSliceI, h]

theorem claim5_set_error_frame_witness :
    DMap.SetMapSI exD (Val.int 9) "k" [Val.str "missing"] =
      (some (Except.error (DErr.keyNotFound (Val.str "missing")
        [Val.str "missing"])), exD) ∧
    DMap.SetMapII exD (Val.int 9) (Val.int 2) [Val.str "root"] =
      (some (Except.error (DErr.notMapII [Val.str "root"])), exD) ∧
    DMap.SetSliceI exD (Val.int 9) 0 [Val.str "root"] =
      (some (Except.error (DErr.notSliceI [Val.str "root"])), exD) := by
  refine ⟨?_, ?_, ?_⟩
  · exact (claim5_set_error_frame exD [Val.str "missing"] (Val.int 9)
      (DErr.keyNotFound (Val.str "missing") [Val.str "missing"])).1 "k" (by decide)
  · exact (claim5_set_error_frame exD [Val.str "root"] (Val.int 9)
      (DErr.notMapII [Val.str "root"])).2.1 (Val.int 2) (by decide)
  · exact (claim5_set_error_frame exD [Val.str "root"] (Val.int 9)
      (DErr.notSliceI [Val.str "root"])).2.2 0 (by decide)

theorem getStep_shape (cur p : Val) (pre1 pre2 : List Val) :
    (getStep cur p pre1 = none ∧ getStep cur p pre2 = none) ∨
    (∃ e1 e2, getStep cur p pre1 = some (Except.error e1) ∧
      getStep cur p pre2 = some (Except.error e2)) ∨
    (∃ v, getStep cur p pre1 = some (Except.ok v) ∧
      getStep cur p pre2 = some (Except.ok v)) := by
  cases cur with
  | mapSI m =>
    cases p with
    | str k =>
      cases hl : lookupSI m k with
      | some v =>
        exact Or.inr (Or.inr ⟨v, by simp [getStep, hl], by simp [getStep, hl]⟩)
      | none =>
        exact Or.inr (Or.inl ⟨DErr.keyNotFound (Val.str k) pre1,
          DErr.keyNotFound (Val.str k) pre2,
          by simp [getStep, hl], by simp [getStep, hl]⟩)
    | null => exact Or.inr (Or.inl ⟨_, _, rfl, rfl⟩)
    | bool b => exact Or.inr (Or.inl ⟨_, _, rfl, rfl⟩)
    | int n => exact Or.inr (Or.inl ⟨_, _, rfl, rfl⟩)
    | mapSI x => exact Or.inr (Or.inl ⟨_, _, rfl, rfl⟩)
    | mapII x => exact Or.inr (Or.inl ⟨_, _, rfl, rfl⟩)
    | slice x => exact Or.inr (Or.inl ⟨_, _, rfl, rfl⟩)
  | mapII m =>
    by_cases hc : p.goComparable = true
    · cases hl : lookupII m p with
      | some v =>
        exact Or.inr (Or.inr ⟨v, by simp [getStep, hc, hl], by simp [getStep, hc, hl]⟩)
      | none =>
        exact Or.inr (Or.inl ⟨DErr.keyNotFound p pre1, DErr.keyNotFound p pre2,
          by simp [getStep, hc, hl], by simp [getStep, hc, hl]⟩)
    · exact Or.inl ⟨by simp [getStep, hc], by simp [getStep, hc]⟩
  | slice xs =>
    cases p with
    | int i =>
      by_cases hb : i < 0 ∨ (xs.length : Int) ≤ i
      · refine Or.inr (Or.inl ⟨DErr.indexOutOfRange i pre1,
          DErr.indexOutOfRange i pre2, ?_, ?_⟩) <;>
          (simp only [getStep]; rw [if_pos hb])
      · refine Or.inr (Or.inr ⟨xs.getD i.toNat Val.null, ?_, ?_⟩) <;>
          (simp only [getStep]; rw [if_neg hb])
    | null => exact Or.inr (Or.inl ⟨_, _, rfl, rfl⟩)
    | bool b => exact Or.inr (Or.inl ⟨_, _, rfl, rfl⟩)
    | str s => exact Or.inr (Or.inl ⟨_, _, rfl, rfl⟩)
    | mapSI x => exact Or.inr (Or.inl ⟨_, _, rfl, rfl⟩)
    | mapII x => exact Or.inr (Or.inl ⟨_, _, rfl, rfl⟩)
    | slice x => exact Or.inr (Or.inl ⟨_, _, rfl, rfl⟩)
  | null => exact Or.inr (Or.inl ⟨_, _, rfl, rfl⟩)
  | bool b => exact Or.inr (Or.inl ⟨_, _, rfl, rfl⟩)
  | int n => exact Or.inr (Or.inl ⟨_, _, rfl, rfl⟩)
  | str s => exact Or.inr (Or.inl ⟨_, _, rfl, rfl⟩)

/-- C3 (amended): resolving a path of length k and then one more segment from
the result is equivalent to resolving the (k+1)-segment path in one call as
far as the outcome goes: both panic, both fail, or both succeed with the same
wrapped value.  The two routes need not produce the same error value. -/
theorem claim3_compose_outcome (d : DMap) (P : List Val) (s : Val) :
    outcomeEquiv (d.Get (P ++ [s])) (composeGet d P s) := by
  unfold composeGet
  by_cases hnull : d.data = Val.null
  · by_cases hP : P = []
    · subst hP
      have h0 : d.Get [] = some (Except.ok ⟨d.data⟩) := by
        unfold DMap.Get
        rw [if_neg (by simp)]
        rfl
      have h1 : d.Get ([] ++ [s]) = some (Except.error DErr.emptyData) := by
        unfold DMap.Get
        rw [if_pos ⟨by simp [DMap.HasData, hnull], by simp⟩]
      have h2 : DMap.Get ⟨d.data⟩ [s] = some (Except.error DErr.emptyData) := by
        unfold DMap.Get
        rw [if_pos ⟨by simp [DMap.HasData, hnull], by simp⟩]
      rw [h0, h1]
      show outcomeEquiv (some (Except.error DErr.emptyData)) (DMap.Get ⟨d.data⟩ [s])
      rw [h2]
      simp [outcomeEquiv]
    · have h1 : d.Get P = some (Except.error DErr.emptyData) := by
        unfold DMap.Get
        rw [if_pos ⟨by simp [DMap.HasData, hnull], hP⟩]
      have h2 : d.Get (P ++ [s]) = some (Except.error DErr.emptyData) := by
        unfold DMap.Get
        rw [if_pos ⟨by simp [DMap.HasData, hnull], by simp [hP]⟩]
      rw [h1, h2]
      simp [outcomeEquiv]
  · have hhd : d.HasData = true := by simp [DMap.HasData, hnull]
    have hGP : d.Get P = (getLoop d.data [] P).map (Except.map DMap.mk) := by
      unfold DMap.Get
      rw [if_neg (by simp [hhd])]
    have hGPs : d.Get (P ++ [s]) =
        (contGet (getLoop d.data [] P) P [s]).map (Except.map DMap.mk) := by
      unfold DMap.Get
      rw [if_neg (by simp [hhd])]
      rw [getLoop_append]
      simp
    rw [hGPs, hGP]
    cases r : getLoop d.data [] P with
    | none => simp [contGet, outcomeEquiv]
    | some x =>
      cases x with
      | error e => simp [contGet, Except.map, outcomeEquiv]
      | ok v =>
        simp only [contGet, Option.map, Except.map]
        by_cases hv : v = Val.null
        · subst hv
          have hR : DMap.Get ⟨Val.null⟩ [s] =
              some (Except.error DErr.emptyData) := by
            unfold DMap.Get
            rw [if_pos ⟨by simp [DMap.HasData], by simp⟩]
          rw [hR]
          have hL : getLoop Val.null P [s] =
              some (Except.error (DErr.unexpectedType (P ++ [s]))) := rfl
          rw [hL]
          simp [outcomeEquiv]
        · have hR : DMap.Get ⟨v⟩ [s] =
              (getLoop v [] [s]).map (Except.map DMap.mk) := by
            unfold DMap.Get
            rw [if_neg (by simp [DMap.HasData, hv])]
          rw [hR]
          rcases getStep_shape v s (P ++ [s]) ([] ++ [s]) with
            ⟨h1, h2⟩ | ⟨e1, e2, h1, h2⟩ | ⟨w, h1, h2⟩ <;>
            simp only [getLoop] <;> rw [h1, h2] <;>
            simp [outcomeEquiv, Except.map, getLoop]

/-- C3 counterexample: the two routes can fail with different errors.  On
`{"a": null}` the one-shot resolution of `["a","b"]` fails with
`UnexpectedType` carrying `["a","b"]`, while resolving `["a"]` first and
`["b"]` from the result fails with `EmptyData`. -/
theorem claim3_counterexample :
    DMap.Get ⟨Val.mapSI [("a", Val.null)]⟩ [Val.str "a", Val.str "b"] =
      some (Except.error (DErr.unexpectedType [Val.str "a", Val.str "b"])) ∧
    composeGet ⟨Val.mapSI [("a", Val.null)]⟩ [Val.str "a"] (Val.str "b") =
      some (Except.error DErr.emptyData) ∧
    DErr.unexpectedType [Val.str "a", Val.str "b"] ≠ DErr.emptyData := by
  refine ⟨by decide, by decide, by decide⟩

theorem getStep_error_path (cur p : Val) (pre1 : List Val) (e : DErr)
    (h : getStep cur p pre1 = some (Except.error e)) :
    e.carriedPath = some pre1 := by
  cases cur with
  | mapSI m =>
    cases p with
    | str k =>
      simp only [getStep] at h
      cases hl : lookupSI m k <;> rw [hl] at h <;> simp at h
      subst h
      rfl
    | null => simp only [getStep] at h; simp at h; subst h; rfl
    | bool b => simp only [getStep] at h; simp at h; subst h; rfl
    | int n => simp only [getStep] at h; simp at h; subst h; rfl
    | mapSI x => simp only [getStep] at h; simp at h; subst h; rfl
    | mapII x => simp only [getStep] at h; simp at h; subst h; rfl
    | slice x => simp only [getStep] at h; simp at h; subst h; rfl
  | mapII m =>
    simp only [getStep] at h
    split at h
    · cases hl : lookupII m p <;> rw [hl] at h <;> simp at h
      subst h
      rfl
    · simp at h
  | slice xs =>
    cases p with
    | int i =>
      simp only [getStep] at h
      split at h <;> simp at h
      subst h
      rfl
    | null => simp only [getStep] at h; simp at h; subst h; rfl
    | bool b => simp only [getStep] at h; simp at h; subst h; rfl
    | str s => simp only [getStep] at h; simp at h; subst h; rfl
    | mapSI x => simp only [getStep] at h; simp at h; subst h; rfl
    | mapII x => simp only [getStep] at h; simp at h; subst h; rfl
    | slice x => simp only [getStep] at h; simp at h; subst h; rfl
  | null => simp only [getStep] at h; simp at h; subst h; rfl
  | bool b => simp only [getStep] at h; simp at h; subst h; rfl
  | int n => simp only [getStep] at h; simp at h; subst h; rfl
  | str s => simp only [getStep] at h; simp at h; subst h; rfl

theorem getLoop_error_locate :
    ∀ (path : List Val) (cur : Val) (pre : List Val) (e : DErr),
    getLoop cur pre path = some (Except.error e) →
    ∃ i, i < path.length ∧ e.carriedPath = some (pre ++ path.take (i + 1)) ∧
      getLoop cur pre (path.take (i + 1)) = some (Except.error e) ∧
      ∃ v, getLoop cur pre (path.take i) = some (Except.ok v) := by
  intro path
  induction path with
  | nil => intro cur pre e h; simp [getLoop] at h
  | cons p rest ih =>
    intro cur pre e h
    simp only [getLoop] at h
    cases hs : getStep cur p (pre ++ [p]) with
    | none => rw [hs] at h; simp at h
    | some r =>
      cases r with
      | error e1 =>
        rw [hs] at h
        simp at h
        subst h
        refine ⟨0, by simp, ?_, ?_, ⟨cur, rfl⟩⟩
        · simpa using getStep_error_path cur p (pre ++ [p]) e1 hs
        · simp only [List.take_succ_cons, List.take_zero, getLoop]
          rw [hs]
      | ok v =>
        rw [hs] at h
        obtain ⟨i, hi, hcp, hstep, w, hok⟩ := ih v (pre ++ [p]) e h
        refine ⟨i + 1, by simpa using Nat.succ_lt_succ hi, ?_, ?_, ⟨w, ?_⟩⟩
        · rw [hcp]
          simp [List.take_succ_cons]
        · simp only [List.take_succ_cons, getLoop]
          rw [hs]
          exact hstep
        · simp only [List.take_succ_cons, getLoop]
          rw [hs]
          exact hok

/-- C6 (amended): every error returned by `Get` other than `EmptyData`
(which carries no path at all) carries exactly the path prefix consumed up to
and including the failing step: there is a failing step `i` such that the
prefix of length `i` resolves, the prefix of length `i+1` fails with this very
error, and the error carries that `i+1`-long prefix. -/
theorem claim6_error_carries_failing_prefix (d : DMap) (path : List Val)
    (e : DErr) (h : d.Get path = some (Except.error e)) :
    e = DErr.emptyData ∨
    ∃ i, i < path.length ∧ e.carriedPath = some (path.take (i + 1)) ∧
      d.Get (path.take (i + 1)) = some (Except.error e) ∧
      ∃ w, d.Get (path.take i) = some (Except.ok w) := by
  unfold DMap.Get at h
  split at h
  · left
    simp at h
    rw [h]
  · rename_i hcond
    right
    cases r : getLoop d.data [] path with
    | none => rw [r] at h; simp at h
    | some x =>
      cases x with
      | ok v => rw [r] at h; simp [Except.map] at h
      | error e1 =>
        rw [r] at h
        simp [Except.map] at h
        subst h
        obtain ⟨i, hi, hcp, hstep, v, hok⟩ :=
          getLoop_error_locate path d.data [] e1 r
        have hne : d.data ≠ Val.null := by
          intro hnull
          have hpne : path ≠ [] := by
            intro hp
            rw [hp] at hi
            simp at hi
          exact hcond ⟨by simp [DMap.HasData, hnull], hpne⟩
        refine ⟨i, hi, by simpa using hcp, ?_, ⟨⟨v⟩, ?_⟩⟩
        · unfold DMap.Get
          rw [if_neg (by simp [DMap.HasData, hne])]
          rw [hstep]
          rfl
        · unfold DMap.Get
          rw [if_neg (by simp [DMap.HasData, hne])]
          rw [hok]
          rfl

theorem claim6_error_carries_failing_prefix_witness :
    DErr.keyNotFound (Val.str "missing") [Val.str "root", Val.str "missing"] =
        DErr.emptyData ∨
    ∃ i, i < ([Val.str "root", Val.str "missing", Val.int 0].length) ∧
      (DErr.keyNotFound (Val.str "missing")
          [Val.str "root", Val.str "missing"]).carriedPath =
        some ([Val.str "root", Val.str "missing", Val.int 0].take (i + 1)) ∧
      exD.Get ([Val.str "root", Val.str "missing", Val.int 0].take (i + 1)) =
        some (Except.error (DErr.keyNotFound (Val.str "missing")
          [Val.str "root", Val.str "missing"])) ∧
      ∃ w, exD.Get ([Val.str "root", Val.str "missing", Val.int 0].take i) =
        some (Except.ok w) :=
  claim6_error_carries_failing_prefix exD
    [Val.str "root", Val.str "missing", Val.int 0]
    (DErr.keyNotFound (Val.str "missing") [Val.str "root", Val.str "missing"])
    (by decide)

/-- C6 counterexample: the `EmptyData` error violates the claim as stated:
it is returned by `Get` on a nil root with a non-empty path but carries no
path prefix at all. -/
theorem claim6_counterexample :
    DMap.Get ⟨Val.null⟩ [Val.str "a"] = some (Except.error DErr.emptyData) ∧
    DErr.emptyData.carriedPath = none := by
  refine ⟨by decide, rfl⟩

theorem lookupSI_updSI_self (m : List (String × Val)) (k : String) (f : Val → Val) :
    lookupSI (updSI m k f) k = (lookupSI m k).map f := by
  induction m with
  | nil => rfl
  | cons e rest ih =>
    obtain ⟨k1, v1⟩ := e
    by_cases hk : k1 = k
    · subst hk
      simp [updSI, lookupSI]
    · simp [updSI, lookupSI, hk, ih]

theorem lookupSI_updSI_ne (m : List (String × Val)) (k k2 : String) (f : Val → Val)
    (h : k2 ≠ k) : lookupSI (updSI m k f) k2 = lookupSI m k2 := by
  induction m with
  | nil => rfl
  | cons e rest ih =>
    obtain ⟨k1, v1⟩ := e
    by_cases hk : k1 = k
    · subst hk
      have h1 : k1 ≠ k2 := fun hh => h hh.symm
      simp [updSI, lookupSI, h1]
    · simp [updSI, lookupSI, hk, ih]

theorem lookupII_updII_self (m : List (Val × Val)) (k : Val) (f : Val → Val) :
    lookupII (updII m k f) k = (lookupII m k).map f := by
  induction m with
  | nil => rfl
  | cons e rest ih =>
    obtain ⟨k1, v1⟩ := e
    by_cases hk : k1 = k
    · subst hk
      simp [updII, lookupII]
    · simp [updII, lookupII, hk, ih]

theorem lookupII_updII_ne (m : List (Val × Val)) (k k2 : Val) (f : Val → Val)
    (h : k2 ≠ k) : lookupII (updII m k f) k2 = lookupII m k2 := by
  induction m with
  | nil => rfl
  | cons e rest ih =>
    obtain ⟨k1, v1⟩ := e
    by_cases hk : k1 = k
    · subst hk
      have h1 : k1 ≠ k2 := fun hh => h hh.symm
      simp [updII, lookupII, h1]
    · simp [updII, lookupII, hk, ih]

theorem lookupSI_insertSI_self (m : List (String × Val)) (k : String) (v : Val) :
    lookupSI (insertSI m k v) k = some v := by
  induction m with
  | nil => simp [insertSI, lookupSI]
  | cons e rest ih =>
    obtain ⟨k1, v1⟩ := e
    by_cases hk : k1 = k
    · subst hk
      simp [insertSI, lookupSI]
    · simp [insertSI, lookupSI, hk, ih]

theorem lookupSI_insertSI_ne (m : List (String × Val)) (k k2 : String) (v : Val)
    (h : k2 ≠ k) : lookupSI (insertSI m k v) k2 = lookupSI m k2 := by
  induction m with
  | nil =>
    have h1 : ¬ k = k2 := fun hh => h (Eq.symm hh)
    simp [insertSI, lookupSI, h1]
  | cons e rest ih =>
    obtain ⟨k1, v1⟩ := e
    by_cases hk : k1 = k
    · subst hk
      have h1 : k1 ≠ k2 := fun hh => h hh.symm
      simp [insertSI, lookupSI, h1]
    · simp [insertSI, lookupSI, hk, ih]

theorem lookupII_insertII_self (m : List (Val × Val)) (k : Val) (v : Val) :
    lookupII (insertII m k v) k = some v := by
  induction m with
  | nil => simp [insertII, lookupII]
  | cons e rest ih =>
    obtain ⟨k1, v1⟩ := e
    by_cases hk : k1 = k
    · subst hk
      simp [insertII, lookupII]
    · simp [insertII, lookupII, hk, ih]

theorem lookupII_insertII_ne (m : List (Val × Val)) (k k2 : Val) (v : Val)
    (h : k2 ≠ k) : lookupII (insertII m k v) k2 = lookupII m k2 := by
  induction m with
  | nil =>
    have h1 : ¬ k = k2 := fun hh => h (Eq.symm hh)
    simp [insertII, lookupII, h1]
  | cons e rest ih =>
    obtain ⟨k1, v1⟩ := e
    by_cases hk : k1 = k
    · subst hk
      have h1 : k1 ≠ k2 := fun hh => h hh.symm
      simp [insertII, lookupII, h1]
    · simp [insertII, lookupII, hk, ih]

theorem updIdxN_length (xs : List Val) (n : Nat) (f : Val → Val) :
    (updIdxN xs n f).length = xs.length := by
  induction xs generalizing n with
  | nil => rfl
  | cons x rest ih =>
    cases n with
    | zero => simp [updIdxN]
    | succ n => simp [updIdxN, ih]

theorem updIdxN_getD_self (xs : List Val) (n : Nat) (f : Val → Val) (dv : Val)
    (h : n < xs.length) : (updIdxN xs n f).getD n dv = f (xs.getD n dv) := by
  induction xs generalizing n with
  | nil => simp at h
  | cons x rest ih =>
    cases n with
    | zero => simp [updIdxN]
    | succ n =>
      simp only [updIdxN, List.getD_cons_succ]
      exact ih n (by simpa using Nat.lt_of_succ_lt_succ h)

theorem updIdxN_getD_ne (xs : List Val) (n n2 : Nat) (f : Val → Val) (dv : Val)
    (h : n2 ≠ n) : (updIdxN xs n f).getD n2 dv = xs.getD n2 dv := by
  induction xs generalizing n n2 with
  | nil => rfl
  | cons x rest ih =>
    cases n with
    | zero =>
      cases n2 with
      | zero => exact absurd rfl h
      | succ n2 => simp [updIdxN]
    | succ n =>
      cases n2 with
      | zero => simp [updIdxN]
      | succ n2 =>
        simp only [updIdxN, List.getD_cons_succ]
        exact ih n n2 (fun hh => h (by rw [hh]))

theorem updateAt_ne_null (cur : Val) (P : List Val) (g : Val → Val)
    (h1 : cur ≠ Val.null) (h2 : P = [] → g cur ≠ Val.null) :
    updateAt cur P g ≠ Val.null := by
  cases P with
  | nil => exact h2 rfl
  | cons p ps =>
    cases cur with
    | null => exact absurd rfl h1
    | bool b => simp [updateAt]
    | int n => simp [updateAt]
    | str s => simp [updateAt]
    | mapSI m =>
      cases p <;> simp [updateAt]
    | mapII m => simp [updateAt]
    | slice xs =>
      cases p with
      | int i =>
        simp only [updateAt]
        split <;> simp
      | null => simp [updateAt]
      | bool b => simp [updateAt]
      | str s => simp [updateAt]
      | mapSI x => simp [updateAt]
      | mapII x => simp [updateAt]
      | slice x => simp [updateAt]

theorem getLoop_updateAt_ok :
    ∀ (P : List Val) (cur : Val) (pre : List Val) (v : Val) (g : Val → Val),
    getLoop cur pre P = some (Except.ok v) →
    getLoop (updateAt cur P g) pre P = some (Except.ok (g v)) := by
  intro P
  induction P with
  | nil =>
    intro cur pre v g h
    simp [getLoop] at h
    subst h
    simp [getLoop, updateAt]
  | cons p ps ih =>
    intro cur pre v g h
    simp only [getLoop] at h ⊢
    cases hs : getStep cur p (pre ++ [p]) with
    | none => rw [hs] at h; simp at h
    | some r =>
      cases r with
      | error e => rw [hs] at h; simp at h
      | ok c =>
        rw [hs] at h
        have hstep2 : getStep (updateAt cur (p :: ps) g) p (pre ++ [p]) =
            some (Except.ok (updateAt c ps g)) := by
          cases cur with
          | mapSI m =>
            cases p with
            | str k =>
              simp only [getStep] at hs
              cases hl : lookupSI m k <;> rw [hl] at hs <;> simp at hs
              subst hs
              simp only [updateAt, getStep]
              rw [lookupSI_updSI_self, hl]
              rfl
            | null => simp [getStep] at hs
            | bool b => simp [getStep] at hs
            | int n => simp [getStep] at hs
            | mapSI x => simp [getStep] at hs
            | mapII x => simp [getStep] at hs
            | slice x => simp [getStep] at hs
          | mapII m =>
            simp only [getStep] at hs
            split at hs
            · rename_i hc
              cases hl : lookupII m p <;> rw [hl] at hs <;> simp at hs
              subst hs
              simp only [updateAt, getStep]
              rw [if_pos hc, lookupII_updII_self, hl]
              rfl
            · simp at hs
          | slice xs =>
            cases p with
            | int i =>
              simp only [getStep] at hs
              split at hs
              · simp at hs
              · rename_i hb
                simp only [Option.some.injEq, Except.ok.injEq] at hs
                subst hs
                have hi0 : ¬ i < 0 := fun hh => hb (Or.inl hh)
                have hilen : i.toNat < xs.length := by omega
                have hup : updateAt (Val.slice xs) (Val.int i :: ps) g =
                    Val.slice (updIdxN xs i.toNat (fun c => updateAt c ps g)) := by
                  simp [updateAt, hi0]
                rw [hup]
                simp only [getStep]
                rw [if_neg (by rw [updIdxN_length]; exact hb)]
                rw [updIdxN_getD_self xs i.toNat _ Val.null hilen]
            | null => simp [getStep] at hs
            | bool b => simp [getStep] at hs
            | str s => simp [getStep] at hs
            | mapSI x => simp [getStep] at hs
            | mapII x => simp [getStep] at hs
            | slice x => simp [getStep] at hs
          | null => simp [getStep] at hs
          | bool b => simp [getStep] at hs
          | int n => simp [getStep] at hs
          | str s => simp [getStep] at hs
        rw [hstep2]
        exact ih c (pre ++ [p]) v g h

theorem getLoop_updateAt_frame :
    ∀ (Q P : List Val) (cur : Val) (pre : List Val) (g : Val → Val),
    ¬ (Q <+: P) → ¬ (P <+: Q) →
    getLoop (updateAt cur P g) pre Q = getLoop cur pre Q := by
  intro Q
  induction Q with
  | nil =>
    intro P cur pre g hQP hPQ
    exact absurd (List.nil_prefix) hQP
  | cons q Qs ih =>
    intro P cur pre g hQP hPQ
    cases P with
    | nil => exact absurd (List.nil_prefix) hPQ
    | cons p Ps =>
      by_cases hqp : q = p
      · subst hqp
        have hQP2 : ¬ (Qs <+: Ps) :=
          fun hh => hQP (List.cons_prefix_cons.mpr ⟨rfl, hh⟩)
        have hPQ2 : ¬ (Ps <+: Qs) :=
          fun hh => hPQ (List.cons_prefix_cons.mpr ⟨rfl, hh⟩)
        cases cur with
        | mapSI m =>
          cases q with
          | str k =>
            have hup : updateAt (Val.mapSI m) (Val.str k :: Ps) g =
                Val.mapSI (updSI m k (fun c => updateAt c Ps g)) := by
              simp [updateAt]
            rw [hup]
            simp only [getLoop, getStep]
            rw [lookupSI_updSI_self]
            cases hl : lookupSI m k with
            | none => rfl
            | some c => exact ih Ps c (pre ++ [Val.str k]) g hQP2 hPQ2
          | null =>
            have hup : updateAt (Val.mapSI m) (Val.null :: Ps) g =
                Val.mapSI m := by simp [updateAt]
            rw [hup]
          | bool b =>
            have hup : updateAt (Val.mapSI m) (Val.bool b :: Ps) g =
                Val.mapSI m := by simp [updateAt]
            rw [hup]
          | int n =>
            have hup : updateAt (Val.mapSI m) (Val.int n :: Ps) g =
                Val.mapSI m := by simp [updateAt]
            rw [hup]
          | mapSI x =>
            have hup : updateAt (Val.mapSI m) (Val.mapSI x :: Ps) g =
                Val.mapSI m := by simp [updateAt]
            rw [hup]
          | mapII x =>
            have hup : updateAt (Val.mapSI m) (Val.mapII x :: Ps) g =
                Val.mapSI m := by simp [updateAt]
            rw [hup]
          | slice x =>
            have hup : updateAt (Val.mapSI m) (Val.slice x :: Ps) g =
                Val.mapSI m := by simp [updateAt]
            rw [hup]
        | mapII m =>
          have hup : updateAt (Val.mapII m) (q :: Ps) g =
              Val.mapII (updII m q (fun c => updateAt c Ps g)) := by
            simp [updateAt]
          rw [hup]
          simp only [getLoop, getStep]
          by_cases hc : q.goComparable = true
          · rw [if_pos hc, if_pos hc, lookupII_updII_self]
            cases hl : lookupII m q with
            | none => rfl
            | some c => exact ih Ps c (pre ++ [q]) g hQP2 hPQ2
          · rw [if_neg hc, if_neg hc]
        | slice xs =>
          cases q with
          | int i =>
            by_cases hi0 : i < 0
            · have hup : updateAt (Val.slice xs) (Val.int i :: Ps) g =
                  Val.slice xs := by simp [updateAt, hi0]
              rw [hup]
            · have hup : updateAt (Val.slice xs) (Val.int i :: Ps) g =
                  Val.slice (updIdxN xs i.toNat (fun c => updateAt c Ps g)) := by
                simp [updateAt, hi0]
              rw [hup]
              simp only [getLoop, getStep]
              by_cases hb : i < 0 ∨ (xs.length : Int) ≤ i
              · rw [if_pos (by rw [updIdxN_length]; exact hb), if_pos hb]
              · rw [if_neg (by rw [updIdxN_length]; exact hb), if_neg hb]
                rw [updIdxN_getD_self xs i.toNat _ Val.null (by omega)]
                exact ih Ps (xs.getD i.toNat Val.null) (pre ++ [Val.int i]) g
                  hQP2 hPQ2
          | null =>
            have hup : updateAt (Val.slice xs) (Val.null :: Ps) g =
                Val.slice xs := by simp [updateAt]
            rw [hup]
          | bool b =>
            have hup : updateAt (Val.slice xs) (Val.bool b :: Ps) g =
                Val.slice xs := by simp [updateAt]
            rw [hup]
          | str s =>
            have hup : updateAt (Val.slice xs) (Val.str s :: Ps) g =
                Val.slice xs := by simp [updateAt]
            rw [hup]
          | mapSI x =>
            have hup : updateAt (Val.slice xs) (Val.mapSI x :: Ps) g =
                Val.slice xs := by simp [updateAt]
            rw [hup]
          | mapII x =>
            have hup : updateAt (Val.slice xs) (Val.mapII x :: Ps) g =
                Val.slice xs := by simp [updateAt]
            rw [hup]
          | slice x =>
            have hup : updateAt (Val.slice xs) (Val.slice x :: Ps) g =
                Val.slice xs := by simp [updateAt]
            rw [hup]
        | null =>
          have hup : updateAt Val.null (q :: Ps) g = Val.null := by
            simp [updateAt]
          rw [hup]
        | bool b =>
          have hup : updateAt (Val.bool b) (q :: Ps) g = Val.bool b := by
            simp [updateAt]
          rw [hup]
        | int n =>
          have hup : updateAt (Val.int n) (q :: Ps) g = Val.int n := by
            simp [updateAt]
          rw [hup]
        | str s =>
          have hup : updateAt (Val.str s) (q :: Ps) g = Val.str s := by
            simp [updateAt]
          rw [hup]
      · cases cur with
        | mapSI m =>
          cases p with
          | str k =>
            have hup : updateAt (Val.mapSI m) (Val.str k :: Ps) g =
                Val.mapSI (updSI m k (fun c => updateAt c Ps g)) := by
              simp [updateAt]
            rw [hup]
            cases q with
            | str k2 =>
              have hk : k2 ≠ k := fun hh => hqp (by rw [hh])
              simp only [getLoop, getStep]
              rw [lookupSI_updSI_ne m k k2 _ hk]
            | null => simp only [getLoop, getStep]
            | bool b => simp only [getLoop, getStep]
            | int n => simp only [getLoop, getStep]
            | mapSI x => simp only [getLoop, getStep]
            | mapII x => simp only [getLoop, getStep]
            | slice x => simp only [getLoop, getStep]
          | null =>
            have hup : updateAt (Val.mapSI m) (Val.null :: Ps) g =
                Val.mapSI m := by simp [updateAt]
            rw [hup]
          | bool b =>
            have hup : updateAt (Val.mapSI m) (Val.bool b :: Ps) g =
                Val.mapSI m := by simp [updateAt]
            rw [hup]
          | int n =>
            have hup : updateAt (Val.mapSI m) (Val.int n :: Ps) g =
                Val.mapSI m := by simp [updateAt]
            rw [hup]
          | mapSI x =>
            have hup : updateAt (Val.mapSI m) (Val.mapSI x :: Ps) g =
                Val.mapSI m := by simp [updateAt]
            rw [hup]
          | mapII x =>
            have hup : updateAt (Val.mapSI m) (Val.mapII x :: Ps) g =
                Val.mapSI m := by simp [updateAt]
            rw [hup]
          | slice x =>
            have hup : updateAt (Val.mapSI m) (Val.slice x :: Ps) g =
                Val.mapSI m := by simp [updateAt]
            rw [hup]
        | mapII m =>
          have hup : updateAt (Val.mapII m) (p :: Ps) g =
              Val.mapII (updII m p (fun c => updateAt c Ps g)) := by
            simp [updateAt]
          rw [hup]
          simp only [getLoop, getStep]
          by_cases hc : q.goComparable = true
          · rw [if_pos hc, if_pos hc, lookupII_updII_ne m p q _ hqp]
          · rw [if_neg hc, if_neg hc]
        | slice xs =>
          cases p with
          | int i =>
            by_cases hi0 : i < 0
            · have hup : updateAt (Val.slice xs) (Val.int i :: Ps) g =
                  Val.slice xs := by simp [updateAt, hi0]
              rw [hup]
            · have hup : updateAt (Val.slice xs) (Val.int i :: Ps) g =
                  Val.slice (updIdxN xs i.toNat (fun c => updateAt c Ps g)) := by
                simp [updateAt, hi0]
              rw [hup]
              cases q with
              | int j =>
                have hj : j ≠ i := fun hh => hqp (by rw [hh])
                simp only [getLoop, getStep]
                rw [updIdxN_length]
                by_cases hb : j < 0 ∨ (xs.length : Int) ≤ j
                · rw [if_pos hb, if_pos hb]
                · rw [if_neg hb, if_neg hb]
                  rw [updIdxN_getD_ne xs i.toNat j.toNat _ Val.null (by omega)]
              | null => simp only [getLoop, getStep]
              | bool b => simp only [getLoop, getStep]
              | str s => simp only [getLoop, getStep]
              | mapSI x => simp only [getLoop, getStep]
              | mapII x => simp only [getLoop, getStep]
              | slice x => simp only [getLoop, getStep]
          | null =>
            have hup : updateAt (Val.slice xs) (Val.null :: Ps) g =
                Val.slice xs := by simp [updateAt]
            rw [hup]
          | bool b =>
            have hup : updateAt (Val.slice xs) (Val.bool b :: Ps) g =
                Val.slice xs := by simp [updateAt]
            rw [hup]
          | str s =>
            have hup : updateAt (Val.slice xs) (Val.str s :: Ps) g =
                Val.slice xs := by simp [updateAt]
            rw [hup]
          | mapSI x =>
            have hup : updateAt (Val.slice xs) (Val.mapSI x :: Ps) g =
                Val.slice xs := by simp [updateAt]
            rw [hup]
          | mapII x =>
            have hup : updateAt (Val.slice xs) (Val.mapII x :: Ps) g =
                Val.slice xs := by simp [updateAt]
            rw [hup]
          | slice x =>
            have hup : updateAt (Val.slice xs) (Val.slice x :: Ps) g =
                Val.slice xs := by simp [updateAt]
            rw [hup]
        | null =>
          have hup : updateAt Val.null (p :: Ps) g = Val.null := by
            simp [updateAt]
          rw [hup]
        | bool b =>
          have hup : updateAt (Val.bool b) (p :: Ps) g = Val.bool b := by
            simp [updateAt]
          rw [hup]
        | int n =>
          have hup : updateAt (Val.int n) (p :: Ps) g = Val.int n := by
            simp [updateAt]
          rw [hup]
        | str s =>
          have hup : updateAt (Val.str s) (p :: Ps) g = Val.str s := by
            simp [updateAt]
          rw [hup]

theorem getMapSI_ok (d : DMap) (path : List Val) (m : List (String × Val))
    (h : d.GetMapSI path = some (Except.ok m)) :
    d.Get path = some (Except.ok ⟨Val.mapSI m⟩) := by
  unfold DMap.GetMapSI at h
  cases r : d.Get path with
  | none => rw [r] at h; simp at h
  | some x =>
    cases x with
    | error e => rw [r] at h; simp at h
    | ok w =>
      cases w with
      | mk wd =>
        rw [r] at h
        cases wd <;> simp at h
        case mapSI m1 => subst h; rfl

theorem getMapII_ok (d : DMap) (path : List Val) (m : List (Val × Val))
    (h : d.GetMapII path = some (Except.ok m)) :
    d.Get path = some (Except.ok ⟨Val.mapII m⟩) := by
  unfold DMap.GetMapII at h
  cases r : d.Get path with
  | none => rw [r] at h; simp at h
  | some x =>
    cases x with
    | error e => rw [r] at h; simp at h
    | ok w =>
      cases w with
      | mk wd =>
        rw [r] at h
        cases wd <;> simp at h
        case mapII m1 => subst h; rfl

theorem getSliceI_ok (d : DMap) (path : List Val) (xs : List Val)
    (h : d.GetSliceI path = some (Except.ok xs)) :
    d.Get path = some (Except.ok ⟨Val.slice xs⟩) := by
  unfold DMap.GetSliceI at h
  cases r : d.Get path with
  | none => rw [r] at h; simp at h
  | some x =>
    cases x with
    | error e => rw [r] at h; simp at h
    | ok w =>
      cases w with
      | mk wd =>
        rw [r] at h
        cases wd <;> simp at h
        case slice xs1 => subst h; rfl

theorem get_updateAt (d : DMap) (path : List Val) (c : Val) (g : Val → Val)
    (hget : d.Get path = some (Except.ok ⟨c⟩))
    (hnn : c ≠ Val.null) (hgn : g c ≠ Val.null) :
    DMap.Get ⟨updateAt d.data path g⟩ path = some (Except.ok ⟨g c⟩) := by
  have hdn : d.data ≠ Val.null := get_ok_root_ne_null d path ⟨c⟩ hget hnn
  have hloop : getLoop d.data [] path = some (Except.ok c) :=
    get_ok_loop d path ⟨c⟩ hget
  have hloop2 := getLoop_updateAt_ok path d.data [] c g hloop
  have hdn2 : updateAt d.data path g ≠ Val.null := by
    apply updateAt_ne_null d.data path g hdn
    intro hp
    subst hp
    have hc : d.data = c := by simpa [getLoop] using hloop
    rw [hc]
    exact hgn
  unfold DMap.Get
  rw [if_neg (by simp [DMap.HasData, hdn2])]
  rw [hloop2]
  rfl

theorem set_frame_general (d : DMap) (path : List Val) (g : Val → Val) (c : Val)
    (hget : d.Get path = some (Except.ok ⟨c⟩))
    (hnn : c ≠ Val.null) (hgn : g c ≠ Val.null)
    (seg : Val)
    (hstep : ∀ q pre1, q ≠ seg → getStep (g c) q pre1 = getStep c q pre1)
    (Q : List Val) (hQ1 : ¬ (Q <+: path)) (hQ2 : ¬ ((path ++ [seg]) <+: Q)) :
    DMap.Get ⟨updateAt d.data path g⟩ Q = d.Get Q := by
  have hdn : d.data ≠ Val.null := get_ok_root_ne_null d path ⟨c⟩ hget hnn
  have hdn2 : updateAt d.data path g ≠ Val.null := by
    apply updateAt_ne_null d.data path g hdn
    intro hp
    subst hp
    have hc : d.data = c := by
      have hloop : getLoop d.data [] [] = some (Except.ok c) :=
        get_ok_loop d [] ⟨c⟩ hget
      simpa [getLoop] using hloop
    rw [hc]
    exact hgn
  by_cases hple : path <+: Q
  · obtain ⟨Q2, hQeq⟩ := hple
    subst hQeq
    cases Q2 with
    | nil =>
      have hfalse : path ++ [] <+: path := by simp
      exact absurd hfalse hQ1
    | cons q R =>
      have hq : q ≠ seg := by
        intro hh
        subst hh
        exact hQ2 ⟨R, by simp⟩
      have h1 := get_updateAt d path c g hget hnn hgn
      have hup := get_extend ⟨updateAt d.data path g⟩ path (q :: R) ⟨g c⟩ hdn2 h1
      have hd := get_extend d path (q :: R) ⟨c⟩ hdn hget
      rw [hup, hd]
      simp only [getLoop]
      rw [hstep q (path ++ [q]) hq]
  · unfold DMap.Get
    have hQne : Q ≠ [] := by
      intro hh
      subst hh
      exact hQ1 List.nil_prefix
    rw [if_neg (by simp [DMap.HasData, hdn2, hQne])]
    rw [if_neg (by simp [DMap.HasData, hdn, hQne])]
    rw [getLoop_updateAt_frame Q path d.data [] g hQ1 hple]

theorem setLeafSI_step (m : List (String × Val)) (key : String) (v : Val)
    (q : Val) (pre1 : List Val) (hq : q ≠ Val.str key) :
    getStep (setLeafSI key v (Val.mapSI m)) q pre1 =
      getStep (Val.mapSI m) q pre1 := by
  have hleaf : setLeafSI key v (Val.mapSI m) = Val.mapSI (insertSI m key v) := rfl
  rw [hleaf]
  cases q with
  | str k2 =>
    have hk : k2 ≠ key := fun hh => hq (by rw [hh])
    simp only [getStep]
    rw [lookupSI_insertSI_ne m key k2 v hk]
  | null => rfl
  | bool b => rfl
  | int n => rfl
  | mapSI x => rfl
  | mapII x => rfl
  | slice x => rfl

theorem setLeafII_step (m : List (Val × Val)) (key : Val) (v : Val)
    (q : Val) (pre1 : List Val) (hq : q ≠ key) :
    getStep (setLeafII key v (Val.mapII m)) q pre1 =
      getStep (Val.mapII m) q pre1 := by
  have hleaf : setLeafII key v (Val.mapII m) = Val.mapII (insertII m key v) := rfl
  rw [hleaf]
  simp only [getStep]
  by_cases hc : q.goComparable = true
  · rw [if_pos hc, if_pos hc, lookupII_insertII_ne m key q v hq]
  · rw [if_neg hc, if_neg hc]

theorem setLeafSlice_step (xs : List Val) (i : Int) (v : Val)
    (hi0 : 0 ≤ i) (q : Val) (pre1 : List Val) (hq : q ≠ Val.int i) :
    getStep (setLeafSlice i v (Val.slice xs)) q pre1 =
      getStep (Val.slice xs) q pre1 := by
  have hleaf : setLeafSlice i v (Val.slice xs) =
      Val.slice (updIdxN xs i.toNat (fun _ => v)) := by
    simp [setLeafSlice]
    omega
  rw [hleaf]
  cases q with
  | int j =>
    have hj : j ≠ i := fun hh => hq (by rw [hh])
    simp only [getStep]
    rw [updIdxN_length]
    by_cases hb : j < 0 ∨ (xs.length : Int) ≤ j
    · rw [if_pos hb, if_pos hb]
    · rw [if_neg hb, if_neg hb]
      rw [updIdxN_getD_ne xs i.toNat j.toNat _ Val.null (by omega)]
  | null => rfl
  | bool b => rfl
  | str s => rfl
  | mapSI x => rfl
  | mapII x => rfl
  | slice x => rfl

/-- C4: each typed setter applied at an existing, shape-correct parent path
with a valid key/index succeeds; a subsequent `Get` of the written path
returns the just-written value; every other entry of the parent container is
unchanged; and every path that neither goes through the written entry nor is
a prefix of the parent path (those wrappers now show the rebuilt containers)
resolves exactly as before. -/
theorem claim4_set_readback_frame (d : DMap) (path : List Val) (v : Val) :
    (∀ (m : List (String × Val)) (key : String),
      d.GetMapSI path = some (Except.ok m) →
      ∃ d1, d.SetMapSI v key path = (some (Except.ok ()), d1) ∧
        d1.Get (path ++ [Val.str key]) = some (Except.ok ⟨v⟩) ∧
        (∀ k2, k2 ≠ key → lookupSI (insertSI m key v) k2 = lookupSI m k2) ∧
        (∀ Q, ¬ (Q <+: path) → ¬ ((path ++ [Val.str key]) <+: Q) →
          d1.Get Q = d.Get Q)) ∧
    (∀ (m : List (Val × Val)) (key : Val),
      d.GetMapII path = some (Except.ok m) → key.goComparable = true →
      ∃ d1, d.SetMapII v key path = (some (Except.ok ()), d1) ∧
        d1.Get (path ++ [key]) = some (Except.ok ⟨v⟩) ∧
        (∀ k2, k2 ≠ key → lookupII (insertII m key v) k2 = lookupII m k2) ∧
        (∀ Q, ¬ (Q <+: path) → ¬ ((path ++ [key]) <+: Q) →
          d1.Get Q = d.Get Q)) ∧
    (∀ (xs : List Val) (i : Int),
      d.GetSliceI path = some (Except.ok xs) → 0 ≤ i → i < (xs.length : Int) →
      ∃ d1, d.SetSliceI v i path = (some (Except.ok ()), d1) ∧
        d1.Get (path ++ [Val.int i]) = some (Except.ok ⟨v⟩) ∧
        (∀ j : Int, 0 ≤ j → j < (xs.length : Int) → j ≠ i →
          (updIdxN xs i.toNat (fun _ => v)).getD j.toNat Val.null =
            xs.getD j.toNat Val.null) ∧
        (∀ Q, ¬ (Q <+: path) → ¬ ((path ++ [Val.int i]) <+: Q) →
          d1.Get Q = d.Get Q)) := by
  refine ⟨?_, ?_, ?_⟩
  · intro m key hGetX
    have hget : d.Get path = some (Except.ok ⟨Val.mapSI m⟩) :=
      getMapSI_ok d path m hGetX
    have hnn : (Val.mapSI m) ≠ Val.null := by simp
    have hgn : setLeafSI key v (Val.mapSI m) ≠ Val.null := by simp [setLeafSI]
    have hdn : d.data ≠ Val.null :=
      get_ok_root_ne_null d path ⟨Val.mapSI m⟩ hget hnn
    have h1 := get_updateAt d path (Val.mapSI m) (setLeafSI key v) hget hnn hgn
    have hdn2 : updateAt d.data path (setLeafSI key v) ≠ Val.null := by
      apply updateAt_ne_null d.data path _ hdn
      intro hp
      subst hp
      have hc : d.data = Val.mapSI m := by
        have hloop := get_ok_loop d [] ⟨Val.mapSI m⟩ hget
        simpa [getLoop] using hloop
      rw [hc]
      exact hgn
    refine ⟨⟨updateAt d.data path (setLeafSI key v)⟩, ?_, ?_, ?_, ?_⟩
    · simp only [DMap.SetMapSI, hGetX]
    · have h2 := get_extend ⟨updateAt d.data path (setLeafSI key v)⟩ path
        [Val.str key] ⟨setLeafSI key v (Val.mapSI m)⟩ hdn2 h1
      rw [h2]
      show (getLoop (Val.mapSI (insertSI m key v)) path [Val.str key]).map
        (Except.map DMap.mk) = _
      simp only [getLoop, getStep]
      rw [lookupSI_insertSI_self]
      rfl
    · intro k2 hk2
      exact lookupSI_insertSI_ne m key k2 v hk2
    · intro Q hQ1 hQ2
      exact set_frame_general d path (setLeafSI key v) (Val.mapSI m) hget hnn
        hgn (Val.str key) (fun q pre1 hq => setLeafSI_step m key v q pre1 hq)
        Q hQ1 hQ2
  · intro m key hGetX hkeyc
    have hget : d.Get path = some (Except.ok ⟨Val.mapII m⟩) :=
      getMapII_ok d path m hGetX
    have hnn : (Val.mapII m) ≠ Val.null := by simp
    have hgn : setLeafII key v (Val.mapII m) ≠ Val.null := by simp [setLeafII]
    have hdn : d.data ≠ Val.null :=
      get_ok_root_ne_null d path ⟨Val.mapII m⟩ hget hnn
    have h1 := get_updateAt d path (Val.mapII m) (setLeafII key v) hget hnn hgn
    have hdn2 : updateAt d.data path (setLeafII key v) ≠ Val.null := by
      apply updateAt_ne_null d.data path _ hdn
      intro hp
      subst hp
      have hc : d.data = Val.mapII m := by
        have hloop := get_ok_loop d [] ⟨Val.mapII m⟩ hget
        simpa [getLoop] using hloop
      rw [hc]
      exact hgn
    refine ⟨⟨updateAt d.data path (setLeafII key v)⟩, ?_, ?_, ?_, ?_⟩
    · simp only [DMap.SetMapII, hGetX]
      rw [if_pos hkeyc]
    · have h2 := get_extend ⟨updateAt d.data path (setLeafII key v)⟩ path
        [key] ⟨setLeafII key v (Val.mapII m)⟩ hdn2 h1
      rw [h2]
      show (getLoop (Val.mapII (insertII m key v)) path [key]).map
        (Except.map DMap.mk) = _
      simp only [getLoop, getStep]
      rw [if_pos hkeyc, lookupII_insertII_self]
      rfl
    · intro k2 hk2
      exact lookupII_insertII_ne m key k2 v hk2
    · intro Q hQ1 hQ2
      exact set_frame_general d path (setLeafII key v) (Val.mapII m) hget hnn
        hgn key (fun q pre1 hq => setLeafII_step m key v q pre1 hq) Q hQ1 hQ2
  · intro xs i hGetX hi0 hilen
    have hget : d.Get path = some (Except.ok ⟨Val.slice xs⟩) :=
      getSliceI_ok d path xs hGetX
    have hnn : (Val.slice xs) ≠ Val.null := by simp
    have hleaf : setLeafSlice i v (Val.slice xs) =
        Val.slice (updIdxN xs i.toNat (fun _ => v)) := by
      simp only [setLeafSlice]
      rw [if_neg (by omega)]
    have hgn : setLeafSlice i v (Val.slice xs) ≠ Val.null := by
      rw [hleaf]
      simp
    have hdn : d.data ≠ Val.null :=
      get_ok_root_ne_null d path ⟨Val.slice xs⟩ hget hnn
    have h1 := get_updateAt d path (Val.slice xs) (setLeafSlice i v) hget hnn hgn
    have hdn2 : updateAt d.data path (setLeafSlice i v) ≠ Val.null := by
      apply updateAt_ne_null d.data path _ hdn
      intro hp
      subst hp
      have hc : d.data = Val.slice xs := by
        have hloop := get_ok_loop d [] ⟨Val.slice xs⟩ hget
        simpa [getLoop] using hloop
      rw [hc]
      exact hgn
    refine ⟨⟨updateAt d.data path (setLeafSlice i v)⟩, ?_, ?_, ?_, ?_⟩
    · simp only [DMap.SetSliceI, hGetX]
      rw [if_neg (by omega)]
    · have h2 := get_extend ⟨updateAt d.data path (setLeafSlice i v)⟩ path
        [Val.int i] ⟨setLeafSlice i v (Val.slice xs)⟩ hdn2 h1
      rw [h2, hleaf]
      show (getLoop (Val.slice (updIdxN xs i.toNat (fun _ => v))) path
        [Val.int i]).map (Except.map DMap.mk) = _
      simp only [getLoop, getStep]
      rw [if_neg (by rw [updIdxN_length]; omega)]
      rw [updIdxN_getD_self xs i.toNat _ Val.null (by omega)]
      rfl
    · intro j hj0 hjlen hji
      exact updIdxN_getD_ne xs i.toNat j.toNat _ Val.null (by omega)
    · intro Q hQ1 hQ2
      exact set_frame_general d path (setLeafSlice i v) (Val.slice xs) hget hnn
        hgn (Val.int i)
        (fun q pre1 hq => setLeafSlice_step xs i v hi0 q pre1 hq) Q hQ1 hQ2

theorem claim4_set_readback_frame_witness :
    (∃ d1, DMap.SetMapSI exD (Val.str "now exists") "missing" [Val.str "root"] =
        (some (Except.ok ()), d1) ∧
      d1.Get ([Val.str "root"] ++ [Val.str "missing"]) =
        some (Except.ok ⟨Val.str "now exists"⟩) ∧
      (∀ k2, k2 ≠ "missing" →
        lookupSI (insertSI exRootMap "missing" (Val.str "now exists")) k2 =
          lookupSI exRootMap k2) ∧
      (∀ Q, ¬ (Q <+: [Val.str "root"]) →
        ¬ (([Val.str "root"] ++ [Val.str "missing"]) <+: Q) →
          d1.Get Q = exD.Get Q)) ∧
    (∃ d1, DMap.SetMapII exD (Val.str "one2") (Val.int 1) [Val.str "scal"] =
        (some (Except.ok ()), d1) ∧
      d1.Get ([Val.str "scal"] ++ [Val.int 1]) =
        some (Except.ok ⟨Val.str "one2"⟩) ∧
      (∀ k2, k2 ≠ Val.int 1 →
        lookupII (insertII exScalMap (Val.int 1) (Val.str "one2")) k2 =
          lookupII exScalMap k2) ∧
      (∀ Q, ¬ (Q <+: [Val.str "scal"]) →
        ¬ (([Val.str "scal"] ++ [Val.int 1]) <+: Q) →
          d1.Get Q = exD.Get Q)) ∧
    (∃ d1, DMap.SetSliceI exD (Val.str "changed") 1
        [Val.str "root", Val.str "contents"] = (some (Except.ok ()), d1) ∧
      d1.Get ([Val.str "root", Val.str "contents"] ++ [Val.int 1]) =
        some (Except.ok ⟨Val.str "changed"⟩) ∧
      (∀ j : Int, 0 ≤ j → j < (exContents.length : Int) → j ≠ 1 →
        (updIdxN exContents (1 : Int).toNat (fun _ => Val.str "changed")).getD
            j.toNat Val.null =
          exContents.getD j.toNat Val.null) ∧
      (∀ Q, ¬ (Q <+: [Val.str "root", Val.str "contents"]) →
        ¬ (([Val.str "root", Val.str "contents"] ++ [Val.int 1]) <+: Q) →
          d1.Get Q = exD.Get Q)) := by
  refine ⟨?_, ?_, ?_⟩
  · exact (claim4_set_readback_frame exD [Val.str "root"]
      (Val.str "now exists")).1 exRootMap "missing" (by decide)
  · exact (claim4_set_readback_frame exD [Val.str "scal"]
      (Val.str "one2")).2.1 exScalMap (Val.int 1) (by decide) (by decide)
  · exact (claim4_set_readback_frame exD [Val.str "root", Val.str "contents"]
      (Val.str "changed")).2.2 exContents 1 (by decide) (by decide) (by decide)
